import Mathlib

/-!
Verification development for the `gtfs-sqljs-itinerary` graph-construction,
path-enumeration and schedule-matching pipeline (`src/graph-builder.ts`).

The TypeScript code is shallowly embedded: the GTFS feed accessor (`gtfs-sqljs`)
is modelled as an explicit record of stop/trip/stop-time/route tables plus a
function field for `buildOrderedStopList` (an external collaborator), the
`graphlib` multigraph is modelled as ordered node and edge lists with the same
keyed-overwrite semantics as `graphlib.setEdge`, and the recursive
`findGrandestParent` and `findAllPathsDFS` procedures are given an explicit
fuel argument that bounds the recursion depth (the source bounds the DFS depth
implicitly through its strictly growing visited set, and does not bound the
parent-resolution recursion at all; a `none` result marks non-termination of
the source at that input).
-/

set_option maxRecDepth 8000

namespace GtfsItinerary

/-- A row of the feed's `stops` table: `getStops({stopId})` returns such
records.  `parent_station` is `none` when the column is null/undefined; an
empty string is also falsy in the source's `!stop.parent_station` test. -/
structure StopRec where
  stop_id : String
  parent_station : Option String
deriving DecidableEq

/-- A row of the feed's `trips` table; `service_dates` models the service-day
filtering that `gtfs.getTrips({routeId, directionId, date})` performs inside
the external `gtfs-sqljs` accessor. -/
structure TripRec where
  trip_id : String
  route_id : String
  direction_id : Nat
  service_dates : List String
  trip_short_name : Option String
deriving DecidableEq

/-- A row of the feed's `stop_times` table; times are `HH:MM:SS` strings as in
the source feed. -/
structure StopTimeRec where
  trip_id : String
  stop_id : String
  stop_sequence : Nat
  departure_time : String
  arrival_time : String
deriving DecidableEq

/-- A row of the feed's `routes` table. -/
structure RouteRec where
  route_id : String
  route_short_name : Option String
deriving DecidableEq

/-- An element of the list returned by the accessor's `buildOrderedStopList`. -/
structure OrderedStop where
  stop_id : String
deriving DecidableEq

/-- The feed accessor (`GtfsSqlJs`).  The four tables model its filtered
lookups; `orderedStopList` models the external `buildOrderedStopList`
collaborator, which collapses the given trips' stop patterns into one
representative ordered stop sequence. -/
structure Gtfs where
  stops : List StopRec
  trips : List TripRec
  stop_times : List StopTimeRec
  routes : List RouteRec
  orderedStopList : List String → List OrderedStop

/-- `gtfs.getStops({stopId})`: the stop records whose id matches. -/
def Gtfs.getStopsById (gtfs : Gtfs) (stopId : String) : List StopRec :=
  gtfs.stops.filter (fun s => s.stop_id == stopId)

/-- `gtfs.getTrips({routeId, directionId, date})`. -/
def Gtfs.getTrips (gtfs : Gtfs) (routeId : String) (directionId : Nat)
    (date : String) : List TripRec :=
  gtfs.trips.filter (fun t =>
    t.route_id == routeId && t.direction_id == directionId &&
      t.service_dates.contains date)

/-- Fuel-indexed embedding of `GraphBuilder.findGrandestParent`.  The source
recurses on `stop.parent_station` with no cycle detection and no depth bound;
`none` means the recursion did not terminate within the given depth.  The
source treats an empty-string `parent_station` as absent (JS falsiness). -/
def findGrandestParentF (gtfs : Gtfs) : Nat → String → Option String
  | 0, _ => none
  | fuel + 1, stopId =>
    match gtfs.getStopsById stopId with
    | [] => some stopId
    | stop :: _ =>
      match stop.parent_station with
      | none => some stopId
      | some p => if p = "" then some stopId else findGrandestParentF gtfs fuel p

/-- `GraphBuilder.findGrandestParent`, run with enough fuel for every
terminating parent chain (a terminating chain visits pairwise distinct stop
records, so its length is at most the number of stop rows plus one). -/
def findGrandestParent (gtfs : Gtfs) (stopId : String) : Option String :=
  findGrandestParentF gtfs (gtfs.stops.length + 1) stopId

/-- Edge label of the transit graph (`TransitEdge` in the source). -/
structure TransitEdgeData where
  routeId : String
  directionId : Nat
deriving DecidableEq

/-- One stored edge of the `graphlib` multigraph: endpoints, the edge name
used as part of the multigraph key, and the label (`edgeData`). -/
structure GEdge where
  v : String
  w : String
  name : String
  label : TransitEdgeData
deriving DecidableEq

/-- The `graphlib` directed multigraph: node list and edge list in insertion
order.  `graphlib` keeps per-node out-edge maps whose iteration order is key
insertion order; filtering the global insertion-ordered edge list by source
node yields the same `outEdges` order. -/
structure TGraph where
  nodes : List String
  edges : List GEdge
deriving DecidableEq

/-- `graph.hasNode(n)`. -/
def TGraph.hasNode (g : TGraph) (n : String) : Bool :=
  g.nodes.contains n

/-- `graph.setNode(n)` for a node not yet present (the caller checks). -/
def TGraph.setNode (g : TGraph) (n : String) : TGraph :=
  { g with nodes := g.nodes ++ [n] }

/-- `graphlib.setEdge` creates missing endpoint nodes before inserting. -/
def TGraph.ensureNode (g : TGraph) (n : String) : TGraph :=
  if g.hasNode n then g else g.setNode n

/-- Whether a stored edge carries the multigraph key `(v, w, name)`. -/
def edgeKeyMatches (v w name : String) (e : GEdge) : Bool :=
  e.v == v && e.w == w && e.name == name

/-- `graph.setEdge(v, w, label, name)` with `graphlib` multigraph semantics:
missing endpoints are created, and an edge with the same `(v, w, name)` key is
overwritten in place (its label replaced) rather than duplicated. -/
def TGraph.setEdge (g : TGraph) (v w : String) (label : TransitEdgeData)
    (name : String) : TGraph :=
  if ((g.ensureNode v).ensureNode w).edges.any (edgeKeyMatches v w name) then
    { (g.ensureNode v).ensureNode w with
      edges := ((g.ensureNode v).ensureNode w).edges.map (fun e =>
        if edgeKeyMatches v w name e then { e with label := label } else e) }
  else
    { (g.ensureNode v).ensureNode w with
      edges := ((g.ensureNode v).ensureNode w).edges ++ [⟨v, w, name, label⟩] }

/-- `graph.outEdges(current)`: out-edges of a node in insertion order. -/
def TGraph.outEdges (g : TGraph) (v : String) : List GEdge :=
  g.edges.filter (fun e => e.v == v)

/-- `GraphBuilder.addStopNode`: resolve to the grandest parent, then add the
node if absent.  `none` propagates a non-terminating parent resolution. -/
def addStopNode (gtfs : Gtfs) (g : TGraph) (stopId : String) : Option TGraph :=
  (findGrandestParent gtfs stopId).map (fun parentStopId =>
    if g.hasNode parentStopId then g else g.setNode parentStopId)

/-- The `edgeName` template string of `addTransitEdge`. -/
def edgeName (routeId : String) (directionId : Nat) : String :=
  routeId ++ "_" ++ toString directionId

/-- `GraphBuilder.addTransitEdge`: resolve both endpoints, add their nodes,
then set the keyed edge. -/
def addTransitEdge (gtfs : Gtfs) (g : TGraph) (fromStopId toStopId routeId : String)
    (directionId : Nat) : Option TGraph := do
  let fromParent ← findGrandestParent gtfs fromStopId
  let toParent ← findGrandestParent gtfs toStopId
  let g ← addStopNode gtfs g fromStopId
  let g ← addStopNode gtfs g toStopId
  pure (g.setEdge fromParent toParent ⟨routeId, directionId⟩
    (edgeName routeId directionId))

/-- The `for i in 0 .. orderedStops.length - 2` loop of
`buildGraphForRouteDirection`: one `addTransitEdge` per consecutive stop pair. -/
def addEdgesAlong (gtfs : Gtfs) (routeId : String) (directionId : Nat) :
    TGraph → List String → Option TGraph
  | g, [] => some g
  | g, [_] => some g
  | g, a :: b :: rest => do
    let g' ← addTransitEdge gtfs g a b routeId directionId
    addEdgesAlong gtfs routeId directionId g' (b :: rest)

/-- The `orderedStops` local of `buildGraphForRouteDirection` as stop ids:
the accessor's canonical ordered stop list for the trips of this
route/direction/date. -/
def dirStops (gtfs : Gtfs) (routeId : String) (directionId : Nat)
    (date : String) : List String :=
  (gtfs.orderedStopList
    ((gtfs.getTrips routeId directionId date).map (·.trip_id))).map (·.stop_id)

/-- `GraphBuilder.buildGraphForRouteDirection`: a no-op when the
route/direction has no trips on the date, otherwise one edge per consecutive
stop pair of the canonical ordered stop list. -/
def buildGraphForRouteDirection (gtfs : Gtfs) (g : TGraph) (routeId : String)
    (directionId : Nat) (date : String) : Option TGraph :=
  if (gtfs.getTrips routeId directionId date).isEmpty then some g
  else addEdgesAlong gtfs routeId directionId g (dirStops gtfs routeId directionId date)

/-- `GraphBuilder.buildGraphForRoute`: direction 0 then direction 1. -/
def buildGraphForRoute (gtfs : Gtfs) (g : TGraph) (routeId date : String) :
    Option TGraph := do
  let g ← buildGraphForRouteDirection gtfs g routeId 0 date
  buildGraphForRouteDirection gtfs g routeId 1 date

/-- A `PathSegment` of the source: one traversed edge instance. -/
structure PathSegment where
  startStop : String
  routeId : String
  directionId : Nat
  endStop : String
deriving DecidableEq

/-- Fuel-indexed embedding of `GraphBuilder.findAllPathsDFS`.  The source's
recursion depth is bounded by its strictly growing per-branch visited set, so
any fuel of at least the number of distinct reachable nodes plus one is exact;
the visited set is modelled as a list queried only through membership. -/
def findAllPathsDFS (g : TGraph) (target : String) :
    Nat → String → List String → List PathSegment → List (List PathSegment)
  | 0, _, _, _ => []
  | fuel + 1, current, visited, currentPath =>
    if current = target then [currentPath]
    else
      let visited' := current :: visited
      (g.outEdges current).flatMap (fun e =>
        if visited'.contains e.w then []
        else
          findAllPathsDFS g target fuel e.w visited'
            (currentPath ++ [⟨current, e.label.routeId, e.label.directionId, e.w⟩]))

/-- `GraphBuilder.findAllPaths(startStopId, endStopId)`: unbounded DFS path
enumeration (the source signature takes no `maxPaths`/`maxTransfers`).  The
fuel `g.nodes.length + 1` covers every DFS branch over the graph's nodes. -/
def findAllPaths (gtfs : Gtfs) (g : TGraph) (startStopId endStopId : String) :
    Option (List (List PathSegment)) := do
  let startParent ← findGrandestParent gtfs startStopId
  let endParent ← findGrandestParent gtfs endStopId
  if g.hasNode startParent && g.hasNode endParent then
    pure (findAllPathsDFS g endParent (g.nodes.length + 1) startParent [] [])
  else
    pure []

/-- A `SimplifiedTrip` of the source. -/
structure SimplifiedTrip where
  startStop : String
  endStop : String
  routeId : String
  directionId : Nat
  intermediateStops : List String
deriving DecidableEq

/-- A `TripLeg` of the source. -/
structure TripLeg where
  startStop : String
  endStop : String
  routeId : String
  directionId : Nat
deriving DecidableEq

/-- The fresh `currentTrip` that `simplifyPath` opens at a segment. -/
def segTrip (seg : PathSegment) : SimplifiedTrip :=
  ⟨seg.startStop, seg.endStop, seg.routeId, seg.directionId, []⟩

/-- The loop of `GraphBuilder.simplifyPath` with its `currentTrip` accumulator:
a segment on the same route/direction extends the current trip (its previous
`endStop` becomes an intermediate stop); otherwise the current trip is pushed
and a new one opened. -/
def simplifyPathAux (currentTrip : SimplifiedTrip) :
    List PathSegment → List SimplifiedTrip
  | [] => [currentTrip]
  | seg :: rest =>
    if currentTrip.routeId = seg.routeId ∧ currentTrip.directionId = seg.directionId then
      simplifyPathAux
        { currentTrip with
          intermediateStops := currentTrip.intermediateStops ++ [currentTrip.endStop],
          endStop := seg.endStop } rest
    else
      currentTrip :: simplifyPathAux (segTrip seg) rest

/-- `GraphBuilder.simplifyPath`. -/
def simplifyPath : List PathSegment → List SimplifiedTrip
  | [] => []
  | seg :: rest => simplifyPathAux (segTrip seg) rest

/-- `GraphBuilder.pathToTripLegs`. -/
def pathToTripLegs (path : List PathSegment) : List TripLeg :=
  (simplifyPath path).map (fun t => ⟨t.startStop, t.endStop, t.routeId, t.directionId⟩)

/-- The node sequence of a path: the first segment's start stop followed by
every segment's end stop ([] for the empty path). -/
def nodeSeq : List PathSegment → List String
  | [] => []
  | seg :: rest => seg.startStop :: (seg :: rest).map (·.endStop)

/-- Leg expansion of one simplified trip: its `startStop`, then its
`intermediateStops`, then its `endStop`. -/
def expandTrip (t : SimplifiedTrip) : List String :=
  t.startStop :: (t.intermediateStops ++ [t.endStop])

/-- Plain concatenation of each simplified trip's expansion, as the claim
states it. -/
def flatExpand (trips : List SimplifiedTrip) : List String :=
  trips.flatMap expandTrip

/-- Concatenation of the trips' expansions with the shared junction node
written once: each non-final trip contributes its `startStop` and
`intermediateStops`, and the final trip also contributes its `endStop`. -/
def mergedFlat : List SimplifiedTrip → List String
  | [] => []
  | [t] => t.startStop :: (t.intermediateStops ++ [t.endStop])
  | t :: u :: rest => (t.startStop :: t.intermediateStops) ++ mergedFlat (u :: rest)

/-- JS `parseInt(part, 10)` on one colon-separated part, restricted to the
all-digit case; a missing or non-numeric part (NaN in the source) is modelled
as `none` and treated as 0 by `timeToSeconds`, with which the source agrees on
the well-formed feed times the claims range over. -/
def parseIntPart (cs : List Char) : Option Nat :=
  if cs ≠ [] ∧ cs.all (·.isDigit) then
    some (cs.foldl (fun n c => n * 10 + (c.toNat - 48)) 0)
  else none

/-- `GraphBuilder.timeToSeconds`: split an `HH:MM:SS` string on `':'` and
combine the parsed hour, minute and second parts. -/
def timeToSeconds (timeString : String) : Nat :=
  let parts := timeString.toList.splitOn ':'
  let hours := ((parts.get? 0).bind parseIntPart).getD 0
  let minutes := ((parts.get? 1).bind parseIntPart).getD 0
  let seconds := ((parts.get? 2).bind parseIntPart).getD 0
  hours * 3600 + minutes * 60 + seconds

/-- `GraphBuilder.getRelatedStopIds`: the stop itself plus every stop whose
`parent_station` is exactly this stop. -/
def getRelatedStopIds (gtfs : Gtfs) (stopId : String) : List String :=
  stopId ::
    ((gtfs.stops.filter (fun s => s.parent_station == some stopId)).map (·.stop_id))

/-- The comparator of the source's `departureStopTimes.sort`: ascending
departure time in seconds. -/
def depLE (a b : StopTimeRec) : Prop :=
  timeToSeconds a.departure_time ≤ timeToSeconds b.departure_time

instance : DecidableRel depLE := fun _ _ => Nat.decLe _ _

instance : IsTotal StopTimeRec depLE := ⟨fun _ _ => Nat.le_total _ _⟩

instance : IsTrans StopTimeRec depLE := ⟨fun _ _ _ => Nat.le_trans⟩

/-- A scheduled leg of the source. -/
structure ScheduledLeg where
  tripId : String
  tripShortName : String
  routeShortName : String
  startStop : String
  endStop : String
  departureTime : Nat
  arrivalTime : Nat
deriving DecidableEq

/-- A scheduled journey of the source.  `totalDuration` is a JS number and may
in principle be negative on a malformed feed, hence `Int`. -/
structure ScheduledJourney where
  legs : List ScheduledLeg
  totalDuration : Int
  departureTime : Nat
  arrivalTime : Nat
deriving DecidableEq

/-- JS `x || fallback` on an optional string: `none` and the empty string are
falsy. -/
def jsOr : Option String → String → String
  | none, fallback => fallback
  | some s, fallback => if s = "" then fallback else s

/-- The `trips` local of one leg iteration of `findScheduledTrips`. -/
def legTrips (gtfs : Gtfs) (date : String) (leg : TripLeg) : List TripRec :=
  gtfs.getTrips leg.routeId leg.directionId date

/-- The `stopTimesForTrips` local: stop-time rows of the leg's trips. -/
def legStopTimes (gtfs : Gtfs) (date : String) (leg : TripLeg) : List StopTimeRec :=
  gtfs.stop_times.filter (fun st =>
    ((legTrips gtfs date leg).map (·.trip_id)).contains st.trip_id)

/-- The `departureStopTimes` local (before sorting): stop-time rows at a
start-set stop. -/
def departureCandidates (gtfs : Gtfs) (date : String) (leg : TripLeg) :
    List StopTimeRec :=
  (legStopTimes gtfs date leg).filter (fun st =>
    (getRelatedStopIds gtfs leg.startStop).contains st.stop_id)

/-- The `arrivalStopTime` lookup for one candidate departure: the first
stop-time row of the same trip at an end-set stop with a strictly greater
stop sequence. -/
def arrivalMatch (gtfs : Gtfs) (date : String) (leg : TripLeg)
    (dep : StopTimeRec) : Option StopTimeRec :=
  (legStopTimes gtfs date leg).find? (fun st2 =>
    st2.trip_id == dep.trip_id &&
      (getRelatedStopIds gtfs leg.endStop).contains st2.stop_id &&
      dep.stop_sequence < st2.stop_sequence)

/-- One iteration of the per-leg loop of `GraphBuilder.findScheduledTrips`:
gather the leg's trips and stop times, sort the start-set departures by time
(a stable sort, as JS `Array.sort` is; a stable sort by a total preorder is
unique, so `insertionSort` matches the source), and scan for the first
departure at or after the running cursor whose trip also serves an end-set
stop later in its sequence. -/
def findMatchingLeg (gtfs : Gtfs) (date : String) (leg : TripLeg)
    (currentTime : Nat) : Option ScheduledLeg :=
  if (legTrips gtfs date leg).isEmpty then none
  else if (legStopTimes gtfs date leg).isEmpty then none
  else if (departureCandidates gtfs date leg).isEmpty then none
  else
    match ((departureCandidates gtfs date leg).insertionSort depLE).find? (fun st =>
        decide (currentTime ≤ timeToSeconds st.departure_time) &&
          (arrivalMatch gtfs date leg st).isSome) with
    | none => none
    | some depStopTime =>
      match arrivalMatch gtfs date leg depStopTime with
      | none => none
      | some arrivalStopTime =>
        match (legTrips gtfs date leg).find? (fun t => t.trip_id == depStopTime.trip_id) with
        | none => none
        | some matchedTrip =>
          some ⟨matchedTrip.trip_id,
            jsOr matchedTrip.trip_short_name matchedTrip.trip_id,
            jsOr (((gtfs.routes.filter
              (fun r => r.route_id == leg.routeId)).head?).bind (·.route_short_name))
              leg.routeId,
            leg.startStop, leg.endStop,
            timeToSeconds depStopTime.departure_time,
            timeToSeconds arrivalStopTime.arrival_time⟩

/-- The leg loop of `findScheduledTrips`, threading the `currentTime` cursor:
a failed leg fails the whole journey, a matched leg advances the cursor to its
arrival time plus the minimum transfer duration. -/
def findScheduledLegs (gtfs : Gtfs) (date : String) (minTransferDuration : Nat) :
    List TripLeg → Nat → Option (List ScheduledLeg)
  | [], _ => some []
  | leg :: rest, currentTime =>
    match findMatchingLeg gtfs date leg currentTime with
    | none => none
    | some sl =>
      match findScheduledLegs gtfs date minTransferDuration rest
          (sl.arrivalTime + minTransferDuration) with
      | none => none
      | some sls => some (sl :: sls)

/-- `GraphBuilder.findScheduledTrips`: simplify the path to trip legs, match
each leg greedily, and assemble the journey.  The head/last accessors use a
default that is never hit: the leg list is non-empty here, and the matcher
returns one scheduled leg per input leg. -/
def findScheduledTrips (gtfs : Gtfs) (path : List PathSegment) (date : String)
    (departureTime : Nat) (minTransferDuration : Nat) : Option ScheduledJourney :=
  if (pathToTripLegs path).isEmpty then none
  else
    match findScheduledLegs gtfs date minTransferDuration (pathToTripLegs path)
        departureTime with
    | none => none
    | some scheduledLegs =>
      some ⟨scheduledLegs,
        ((((scheduledLegs.getLast?).map (·.arrivalTime)).getD 0 : Nat) : Int) -
          ((((scheduledLegs.head?).map (·.departureTime)).getD 0 : Nat) : Int),
        (((scheduledLegs.head?).map (·.departureTime)).getD 0 : Nat),
        (((scheduledLegs.getLast?).map (·.arrivalTime)).getD 0 : Nat)⟩

/-! Concrete feeds and graphs used by counterexamples, code evaluations and
witnesses. -/

/-- A feed with a single stop `"S"` whose `parent_station` is `"S"` itself:
the parent chain is a self-cycle. -/
def cycleFeed : Gtfs :=
  { stops := [⟨"S", some "S"⟩], trips := [], stop_times := [], routes := [],
    orderedStopList := fun _ => [] }

/-- A four-route feed whose built graph is a diamond with a long arm:
`A→B` on `r1`, `B→C` on `r2`, `C→D` on `r3` and `A→D` on `r4`, all direction
0 on date `20250101`. -/
def dfsFeed : Gtfs :=
  { stops := [⟨"A", none⟩, ⟨"B", none⟩, ⟨"C", none⟩, ⟨"D", none⟩],
    trips :=
      [⟨"t1", "r1", 0, ["20250101"], none⟩, ⟨"t2", "r2", 0, ["20250101"], none⟩,
       ⟨"t3", "r3", 0, ["20250101"], none⟩, ⟨"t4", "r4", 0, ["20250101"], none⟩],
    stop_times := [], routes := [],
    orderedStopList := fun tripIds =>
      if tripIds = ["t1"] then [⟨"A"⟩, ⟨"B"⟩]
      else if tripIds = ["t2"] then [⟨"B"⟩, ⟨"C"⟩]
      else if tripIds = ["t3"] then [⟨"C"⟩, ⟨"D"⟩]
      else if tripIds = ["t4"] then [⟨"A"⟩, ⟨"D"⟩]
      else [] }

/-- The graph built from `dfsFeed` by adding routes `r1`, `r2`, `r3`, `r4` in
order (verified against `buildGraphForRoute` below). -/
def dfsGraph : TGraph :=
  { nodes := ["A", "B", "C", "D"],
    edges :=
      [⟨"A", "B", "r1_0", ⟨"r1", 0⟩⟩, ⟨"B", "C", "r2_0", ⟨"r2", 0⟩⟩,
       ⟨"C", "D", "r3_0", ⟨"r3", 0⟩⟩, ⟨"A", "D", "r4_0", ⟨"r4", 0⟩⟩] }

/-- The result of the four `buildGraphForRoute` calls on `dfsFeed`. -/
def dfsBuild : Option TGraph := do
  let g ← buildGraphForRoute dfsFeed ⟨[], []⟩ "r1" "20250101"
  let g ← buildGraphForRoute dfsFeed g "r2" "20250101"
  let g ← buildGraphForRoute dfsFeed g "r3" "20250101"
  buildGraphForRoute dfsFeed g "r4" "20250101"

/-- A feed with one route `R`, two trips `t1` and `t2` both serving
`A` then `B` on date `20250101`, departing `A` at 08:00:00 and 09:00:00. -/
def twoTripFeed : Gtfs :=
  { stops := [⟨"A", none⟩, ⟨"B", none⟩],
    trips := [⟨"t1", "R", 0, ["20250101"], none⟩, ⟨"t2", "R", 0, ["20250101"], none⟩],
    stop_times :=
      [⟨"t1", "A", 1, "08:00:00", "08:00:00"⟩, ⟨"t1", "B", 2, "08:20:00", "08:20:00"⟩,
       ⟨"t2", "A", 1, "09:00:00", "09:00:00"⟩, ⟨"t2", "B", 2, "09:20:00", "09:20:00"⟩],
    routes := [⟨"R", some "R"⟩],
    orderedStopList := fun _ => [] }

/-- A two-route feed for a transfer journey: `R1` runs `S1→S2` (08:00:00 to
08:20:00), `R2` runs `S2→S3` (08:30:00 to 08:50:00), both on `20250101`. -/
def transferFeed : Gtfs :=
  { stops := [⟨"S1", none⟩, ⟨"S2", none⟩, ⟨"S3", none⟩],
    trips := [⟨"tA", "R1", 0, ["20250101"], none⟩, ⟨"tB", "R2", 0, ["20250101"], none⟩],
    stop_times :=
      [⟨"tA", "S1", 1, "08:00:00", "08:00:00"⟩, ⟨"tA", "S2", 2, "08:20:00", "08:20:00"⟩,
       ⟨"tB", "S2", 1, "08:30:00", "08:30:00"⟩, ⟨"tB", "S3", 2, "08:50:00", "08:50:00"⟩],
    routes := [⟨"R1", some "R1"⟩, ⟨"R2", some "R2"⟩],
    orderedStopList := fun _ => [] }

/-- The two-leg transfer path over `transferFeed`. -/
def transferPath : List PathSegment :=
  [⟨"S1", "R1", 0, "S2"⟩, ⟨"S2", "R2", 0, "S3"⟩]

/-! Claim theorems. -/

/-- C1: on the feed whose stop `"S"` is its own `parent_station`, the source's
`findGrandestParent` recursion never produces a result at any recursion depth:
the wrapper (run at the depth sufficient for every terminating chain) yields
`none`, and so does every other fuel.  The source has no cycle detection and
no `CycleError`; at this input it recurses unboundedly until the call stack is
exhausted, instead of terminating with a `CycleError` as the claim states. -/
theorem findGrandestParent_self_cycle_diverges :
    findGrandestParent cycleFeed "S" = none ∧
      ∀ fuel : Nat, findGrandestParentF cycleFeed fuel "S" = none := by
  have hstep : ∀ n : Nat,
      findGrandestParentF cycleFeed (n + 1) "S" = findGrandestParentF cycleFeed n "S" :=
    fun _ => rfl
  have hall : ∀ fuel : Nat, findGrandestParentF cycleFeed fuel "S" = none := by
    intro fuel
    induction fuel with
    | zero => rfl
    | succ n ih => rw [hstep, ih]
  exact ⟨hall _, hall⟩

/-- C2: evaluation of the source's `findAllPaths` on the graph built from
`dfsFeed`.  The source signature takes no `maxPaths`/`maxTransfers` arguments
and enumerates every simple path: here it returns 2 paths (so a caller asking
for `maxPaths = 1` could not be honoured) and its first returned path has 3
simplified legs (so it would violate any `maxTransfers ≤ 1` bound, which
should cap simplified legs at `maxTransfers + 1`). -/
theorem findAllPaths_unbounded_eval :
    dfsBuild = some dfsGraph ∧
      findAllPaths dfsFeed dfsGraph "A" "D" =
        some [[⟨"A", "r1", 0, "B"⟩, ⟨"B", "r2", 0, "C"⟩, ⟨"C", "r3", 0, "D"⟩],
          [⟨"A", "r4", 0, "D"⟩]] ∧
      (simplifyPath
        [⟨"A", "r1", 0, "B"⟩, ⟨"B", "r2", 0, "C"⟩, ⟨"C", "r3", 0, "D"⟩]).length = 3 := by
  refine ⟨by decide, by decide, by decide⟩

/-- C3: on the graph built from `dfsFeed`, the source's depth-first
`findAllPaths` returns the 3-hop path before the 1-hop path: the returned
sequence of segment counts is `[3, 1]`, which is *not* non-decreasing, so the
first path found is not minimal-hop (the source explores depth-first, not
breadth-first). -/
theorem findAllPaths_not_hop_ordered_eval :
    (findAllPaths dfsFeed dfsGraph "A" "D").map (fun ps => ps.map List.length) =
      some [3, 1] := by
  decide

/-- C4: evaluation of the source's `findScheduledTrips` on `twoTripFeed`.  The
source takes no `journeysCount` argument and returns `ScheduledJourney | null`
— a single journey built from the single earliest feasible first-leg departure
(trip `t1` at 08:00:00) — even though a second feasible departure (trip `t2`
at 09:00:00) exists, so no widening to `journeysCount` alternatives occurs. -/
theorem findScheduledTrips_single_journey_eval :
    findScheduledTrips twoTripFeed [⟨"A", "R", 0, "B"⟩] "20250101" 0 300 =
      some ⟨[⟨"t1", "t1", "R", "A", "B", 28800, 30000⟩], 1200, 28800, 30000⟩ := by
  decide

/-- C10: a same-source-and-target query hits the DFS base case immediately:
whatever the edge set, `findAllPaths(A, A)` returns exactly one zero-segment
path when `A`'s resolved logical stop is a node of the graph, and the empty
list when it is not — no edge of the graph is ever enumerated, as the result
does not depend on `g.edges`. -/
theorem findAllPaths_same_source_target (gtfs : Gtfs) (g : TGraph) (s p : String)
    (h : findGrandestParent gtfs s = some p) :
    (g.hasNode p = true → findAllPaths gtfs g s s = some [[]]) ∧
      (g.hasNode p = false → findAllPaths gtfs g s s = some []) := by
  constructor <;> intro hn <;>
    simp [findAllPaths, h, hn, findAllPathsDFS]

/-- Witness for C10 at a concrete input: `dfsGraph` contains node `"A"`, and
the query from `"A"` to itself returns exactly the zero-segment path. -/
theorem findAllPaths_same_source_target_witness :
    findAllPaths dfsFeed dfsGraph "A" "A" = some [[]] :=
  (findAllPaths_same_source_target dfsFeed dfsGraph "A" "A" (by decide)).1 (by decide)

/-- A list equation `[s] = l ++ [c]` forces `s = c` and `l = []`. -/
theorem singleton_eq_append_singleton {α : Type} {s c : α} {l : List α}
    (h : [s] = l ++ [c]) : s = c ∧ l = [] := by
  cases l with
  | nil =>
    simp only [List.nil_append, List.cons.injEq] at h
    exact ⟨h.1, rfl⟩
  | cons a t =>
    have hl := congrArg List.length h
    simp only [List.length_cons, List.length_nil, List.length_append] at hl
    omega

/-- DFS invariant for path enumeration: along any branch, the node chain of
the accumulated path (`s` followed by every segment's end stop) is exactly the
reversed visited list followed by the current node, and remains duplicate
free; every emitted path therefore has a duplicate-free node chain starting
with a segment whose start stop is `s`. -/
theorem findAllPathsDFS_inv (g : TGraph) (target : String) :
    ∀ (fuel : Nat) (current : String) (visited : List String)
      (currentPath : List PathSegment) (s : String),
      s :: currentPath.map (·.endStop) = visited.reverse ++ [current] →
      (visited.reverse ++ [current]).Nodup →
      (∀ seg, currentPath.head? = some seg → seg.startStop = s) →
      ∀ p ∈ findAllPathsDFS g target fuel current visited currentPath,
        (s :: p.map (·.endStop)).Nodup ∧
          ∀ seg, p.head? = some seg → seg.startStop = s := by
  intro fuel
  induction fuel with
  | zero => intro current visited currentPath s _ _ _ p hp; simp [findAllPathsDFS] at hp
  | succ n ih =>
    intro current visited currentPath s heq hnd hhd p hp
    rw [findAllPathsDFS] at hp
    by_cases hct : current = target
    · rw [if_pos hct] at hp
      rcases List.mem_singleton.mp hp with rfl
      exact ⟨heq ▸ hnd, hhd⟩
    · rw [if_neg hct] at hp
      rcases List.mem_flatMap.mp hp with ⟨e, _hmem, hpe⟩
      by_cases hw : (current :: visited).contains e.w
      · rw [if_pos hw] at hpe; simp at hpe
      · rw [if_neg hw] at hpe
        have hwmem : e.w ∉ current :: visited := by
          intro hm
          exact hw (List.elem_iff.mpr hm)
        refine ih e.w (current :: visited)
          (currentPath ++ [⟨current, e.label.routeId, e.label.directionId, e.w⟩]) s
          ?_ ?_ ?_ p hpe
        · rw [List.map_append, List.reverse_cons, ← List.cons_append, heq]
          rfl
        · rw [List.reverse_cons, List.nodup_append]
          refine ⟨hnd, List.nodup_singleton _, ?_⟩
          intro x hx hx1
          rcases List.mem_singleton.mp hx1 with rfl
          apply hwmem
          rcases List.mem_append.mp hx with hx2 | hx2
          · exact List.mem_cons_of_mem _ (List.mem_reverse.mp hx2)
          · rcases List.mem_singleton.mp hx2 with rfl
            exact List.mem_cons_self _ _
        · intro seg hseg
          cases hcp : currentPath with
          | nil =>
            rw [hcp] at hseg heq
            simp only [List.nil_append, List.head?_cons, Option.some.injEq] at hseg
            simp only [List.map_nil] at heq
            obtain ⟨hsc, -⟩ := singleton_eq_append_singleton heq
            rw [← hseg]
            exact hsc.symm
          | cons a l =>
            rw [hcp] at hseg
            rw [List.cons_append, List.head?_cons] at hseg
            apply hhd
            rw [hcp, List.head?_cons]
            exact hseg

/-- C5: every path returned by the source's `findAllPaths` is a simple path:
its node sequence (first segment's start stop followed by every segment's end
stop) contains no repeated logical stop, at every recursion fuel.  The DFS
enforces this during enumeration through its per-branch visited set. -/
theorem findAllPaths_simple (gtfs : Gtfs) (g : TGraph) (s t : String)
    (ps : List (List PathSegment)) (h : findAllPaths gtfs g s t = some ps) :
    ∀ p ∈ ps, (nodeSeq p).Nodup := by
  intro p hp
  unfold findAllPaths at h
  rcases Option.bind_eq_some.mp h with ⟨sp, hsp, h2⟩
  rcases Option.bind_eq_some.mp h2 with ⟨tp, htp, h3⟩
  by_cases hn : (g.hasNode sp && g.hasNode tp) = true
  · rw [if_pos hn] at h3
    have hps : ps = findAllPathsDFS g tp (g.nodes.length + 1) sp [] [] :=
      (Option.some.injEq _ _ ▸ h3).symm
    rw [hps] at hp
    have hmain := findAllPathsDFS_inv g tp (g.nodes.length + 1) sp [] [] sp
      (by simp) (by simp) (by simp) p hp
    cases hq : p with
    | nil => simp [nodeSeq]
    | cons seg rest =>
      have hhead : seg.startStop = sp := by
        apply hmain.2
        rw [hq, List.head?_cons]
      have hnd := hmain.1
      rw [hq] at hnd
      simp only [nodeSeq]
      rw [hhead]
      exact hnd
  · rw [if_neg hn] at h3
    have hps : ps = [] := (Option.some.injEq _ _ ▸ h3).symm
    rw [hps] at hp
    simp at hp

/-- Witness for C5 at a concrete input: the 3-segment path returned first by
`findAllPaths` on `dfsGraph` has a duplicate-free node sequence. -/
theorem findAllPaths_simple_witness :
    (nodeSeq [⟨"A", "r1", 0, "B"⟩, ⟨"B", "r2", 0, "C"⟩, ⟨"C", "r3", 0, "D"⟩]).Nodup :=
  findAllPaths_simple dfsFeed dfsGraph "A" "D"
    [[⟨"A", "r1", 0, "B"⟩, ⟨"B", "r2", 0, "C"⟩, ⟨"C", "r3", 0, "D"⟩],
      [⟨"A", "r4", 0, "D"⟩]]
    (by decide) _ (by decide)

/-- The chained-path condition of the claim: each segment's end stop is the
next segment's start stop. -/
def SegChained (p : List PathSegment) : Prop :=
  List.Chain' (fun a b => a.endStop = b.startStop) p

/-- The two-segment, two-route chained path `A→B` on `r1` then `B→C` on `r2`. -/
def twoRoutePath : List PathSegment :=
  [⟨"A", "r1", 0, "B"⟩, ⟨"B", "r2", 0, "C"⟩]

/-- C6 counterexample: on the chained two-route path `A→B→C`, concatenating
each simplified trip's `startStop`, `intermediateStops` and `endStop` yields
`[A, B, B, C]` — the transfer junction `B` appears twice — which is not the
original node sequence `[A, B, C]`. -/
theorem simplify_concat_counterexample :
    SegChained twoRoutePath ∧
      flatExpand (simplifyPath twoRoutePath) ≠ nodeSeq twoRoutePath ∧
      flatExpand (simplifyPath twoRoutePath) = ["A", "B", "B", "C"] ∧
      nodeSeq twoRoutePath = ["A", "B", "C"] := by
  refine ⟨by simp [SegChained, twoRoutePath], by decide, by decide, by decide⟩

/-- The simplifier's accumulator never produces an empty trip list. -/
theorem simplifyPathAux_ne_nil :
    ∀ (segs : List PathSegment) (cur : SimplifiedTrip), simplifyPathAux cur segs ≠ [] := by
  intro segs
  induction segs with
  | nil => intro cur; simp [simplifyPathAux]
  | cons seg rest ih =>
    intro cur
    rw [simplifyPathAux]
    split
    · exact ih _
    · simp

/-- The head trip emitted by the simplifier keeps the accumulator's start
stop. -/
theorem simplifyPathAux_head_start :
    ∀ (segs : List PathSegment) (cur : SimplifiedTrip) (t : SimplifiedTrip),
      (simplifyPathAux cur segs).head? = some t → t.startStop = cur.startStop := by
  intro segs
  induction segs with
  | nil =>
    intro cur t ht
    simp [simplifyPathAux] at ht
    rw [← ht]
  | cons seg rest ih =>
    intro cur t ht
    rw [simplifyPathAux] at ht
    split at ht
    · have h2 := ih _ t ht
      exact h2
    · rw [List.head?_cons, Option.some.injEq] at ht
      rw [← ht]

/-- Junction-merged expansion of the simplifier's output: on a chained
suffix, it reconstructs the accumulator's start stop and intermediates
followed by the node chain of the remaining segments. -/
theorem simplifyPathAux_merged :
    ∀ (segs : List PathSegment) (cur : SimplifiedTrip),
      List.Chain' (fun a b => a.endStop = b.startStop) segs →
      (∀ s0, segs.head? = some s0 → s0.startStop = cur.endStop) →
      mergedFlat (simplifyPathAux cur segs) =
        (cur.startStop :: cur.intermediateStops) ++
          cur.endStop :: segs.map (·.endStop) := by
  intro segs
  induction segs with
  | nil =>
    intro cur _ _
    simp [simplifyPathAux, mergedFlat]
  | cons seg rest ih =>
    intro cur hch hhd
    have hch' : List.Chain' (fun a b => a.endStop = b.startStop) rest :=
      (List.chain'_cons'.mp hch).2
    have hlink : ∀ s0, rest.head? = some s0 → s0.startStop = seg.endStop := by
      intro s0 hs0
      exact ((List.chain'_cons'.mp hch).1 s0 hs0).symm
    rw [simplifyPathAux]
    split
    · rw [ih _ hch' (by intro s0 hs0; exact hlink s0 hs0)]
      simp [List.append_assoc]
    · have hseg : seg.startStop = cur.endStop := hhd seg rfl
      obtain ⟨t, l, hto⟩ : ∃ t l, simplifyPathAux (segTrip seg) rest = t :: l := by
        cases hq : simplifyPathAux (segTrip seg) rest with
        | nil => exact absurd hq (simplifyPathAux_ne_nil rest (segTrip seg))
        | cons t l => exact ⟨t, l, rfl⟩
      rw [hto, mergedFlat]
      rw [← hto, ih (segTrip seg) hch' (by intro s0 hs0; exact hlink s0 hs0)]
      simp [segTrip, hseg]

/-- Consecutive trips in the simplifier's output share their junction stop:
each trip's end stop is the next trip's start stop. -/
theorem simplifyPathAux_chain :
    ∀ (segs : List PathSegment) (cur : SimplifiedTrip),
      List.Chain' (fun a b => a.endStop = b.startStop) segs →
      (∀ s0, segs.head? = some s0 → s0.startStop = cur.endStop) →
      List.Chain' (fun t u => t.endStop = u.startStop) (simplifyPathAux cur segs) := by
  intro segs
  induction segs with
  | nil =>
    intro cur _ _
    simp [simplifyPathAux]
  | cons seg rest ih =>
    intro cur hch hhd
    have hch' : List.Chain' (fun a b => a.endStop = b.startStop) rest :=
      (List.chain'_cons'.mp hch).2
    have hlink : ∀ s0, rest.head? = some s0 → s0.startStop = seg.endStop := by
      intro s0 hs0
      exact ((List.chain'_cons'.mp hch).1 s0 hs0).symm
    rw [simplifyPathAux]
    split
    · exact ih _ hch' (by intro s0 hs0; exact hlink s0 hs0)
    · rw [List.chain'_cons']
      constructor
      · intro u hu
        have := simplifyPathAux_head_start rest (segTrip seg) u hu
        rw [this, segTrip]
        exact (hhd seg rfl).symm
      · exact ih (segTrip seg) hch' (by intro s0 hs0; exact hlink s0 hs0)

/-- C6 (amended): for every chained path, concatenating each simplified
trip's `startStop` and `intermediateStops` — writing the junction stop shared
by consecutive trips once — reconstructs the original node sequence exactly;
each dropped non-final `endStop` is not lost, since every trip's `endStop`
equals the next trip's `startStop` (so the plain start/intermediates/end
concatenation of the claim reconstructs the node sequence with each transfer
junction duplicated); and `simplifyPath` of the empty path is the empty
array. -/
theorem simplify_merged_reconstructs (p : List PathSegment) (hc : SegChained p) :
    mergedFlat (simplifyPath p) = nodeSeq p ∧
      List.Chain' (fun t u => t.endStop = u.startStop) (simplifyPath p) ∧
      simplifyPath ([] : List PathSegment) = [] := by
  refine ⟨?_, ?_, rfl⟩
  · cases p with
    | nil => simp [simplifyPath, mergedFlat, nodeSeq]
    | cons seg rest =>
      rw [simplifyPath]
      have hch' : List.Chain' (fun a b => a.endStop = b.startStop) rest :=
        (List.chain'_cons'.mp hc).2
      have hhd : ∀ s0, rest.head? = some s0 → s0.startStop = (segTrip seg).endStop := by
        intro s0 hs0
        exact ((List.chain'_cons'.mp hc).1 s0 hs0).symm
      rw [simplifyPathAux_merged rest (segTrip seg) hch' hhd]
      simp [segTrip, nodeSeq]
  · cases p with
    | nil => simp [simplifyPath]
    | cons seg rest =>
      rw [simplifyPath]
      have hch' : List.Chain' (fun a b => a.endStop = b.startStop) rest :=
        (List.chain'_cons'.mp hc).2
      have hhd : ∀ s0, rest.head? = some s0 → s0.startStop = (segTrip seg).endStop := by
        intro s0 hs0
        exact ((List.chain'_cons'.mp hc).1 s0 hs0).symm
      exact simplifyPathAux_chain rest (segTrip seg) hch' hhd

/-- Witness for the amended C6 at a concrete input: on the chained two-route
path `A→B→C`, the junction-merged expansion is exactly `[A, B, C]`. -/
theorem simplify_merged_reconstructs_witness :
    mergedFlat (simplifyPath twoRoutePath) = nodeSeq twoRoutePath ∧
      List.Chain' (fun t u => t.endStop = u.startStop) (simplifyPath twoRoutePath) ∧
      simplifyPath ([] : List PathSegment) = [] :=
  simplify_merged_reconstructs twoRoutePath (by simp [SegChained, twoRoutePath])

/-- A matched leg departs no earlier than the running cursor: the scan skips
every candidate with `depTime < currentTime`. -/
theorem findMatchingLeg_departure_ge (gtfs : Gtfs) (date : String) (leg : TripLeg)
    (currentTime : Nat) (sl : ScheduledLeg)
    (h : findMatchingLeg gtfs date leg currentTime = some sl) :
    currentTime ≤ sl.departureTime := by
  unfold findMatchingLeg at h
  split at h
  · exact absurd h (by simp)
  · split at h
    · exact absurd h (by simp)
    · split at h
      · exact absurd h (by simp)
      · split at h
        · exact absurd h (by simp)
        · rename_i depStopTime hfind
          split at h
          · exact absurd h (by simp)
          · split at h
            · exact absurd h (by simp)
            · rename_i arrivalStopTime _harr matchedTrip _hmt
              have hpred := List.find?_some hfind
              rw [Bool.and_eq_true, decide_eq_true_iff] at hpred
              have hsl : sl.departureTime = timeToSeconds depStopTime.departure_time := by
                rw [← Option.some.injEq _ _ |>.mp h]
              rw [hsl]
              exact hpred.1

/-- Chained cursor invariant of the per-leg loop: every returned leg list
starts at or after the initial cursor, and each later leg departs at least
`minTransferDuration` after the previous leg's arrival. -/
theorem findScheduledLegs_chain (gtfs : Gtfs) (date : String) (minTransferDuration : Nat) :
    ∀ (legs : List TripLeg) (currentTime : Nat) (r : List ScheduledLeg),
      findScheduledLegs gtfs date minTransferDuration legs currentTime = some r →
      (∀ sl, r.head? = some sl → currentTime ≤ sl.departureTime) ∧
        List.Chain' (fun a b => a.arrivalTime + minTransferDuration ≤ b.departureTime) r := by
  intro legs
  induction legs with
  | nil =>
    intro currentTime r h
    rw [findScheduledLegs] at h
    rw [← Option.some.injEq _ _ |>.mp h]
    exact ⟨by intro sl hsl; simp at hsl, List.chain'_nil⟩
  | cons leg rest ih =>
    intro currentTime r h
    rw [findScheduledLegs] at h
    split at h
    · exact absurd h (by simp)
    · rename_i sl hmatch
      split at h
      · exact absurd h (by simp)
      · rename_i sls hrec
        rw [← Option.some.injEq _ _ |>.mp h]
        have hrest := ih (sl.arrivalTime + minTransferDuration) sls hrec
        constructor
        · intro sl' hsl'
          rw [List.head?_cons, Option.some.injEq] at hsl'
          rw [← hsl']
          exact findMatchingLeg_departure_ge gtfs date leg currentTime sl hmatch
        · rw [List.chain'_cons']
          exact ⟨fun y hy => hrest.1 y hy, hrest.2⟩

/-- C7: in every journey produced by `findScheduledTrips`, the first leg
departs no earlier than the requested departure time, and each later leg
departs at least `minTransferDuration` seconds after the previous leg's
arrival. -/
theorem findScheduledTrips_transfer_buffer (gtfs : Gtfs) (path : List PathSegment)
    (date : String) (departureTime minTransferDuration : Nat) (j : ScheduledJourney)
    (h : findScheduledTrips gtfs path date departureTime minTransferDuration = some j) :
    (∀ sl, j.legs.head? = some sl → departureTime ≤ sl.departureTime) ∧
      List.Chain' (fun a b => a.arrivalTime + minTransferDuration ≤ b.departureTime)
        j.legs := by
  unfold findScheduledTrips at h
  split at h
  · exact absurd h (by simp)
  · split at h
    · exact absurd h (by simp)
    · rename_i scheduledLegs hlegs
      have hj : j.legs = scheduledLegs := by
        rw [← Option.some.injEq _ _ |>.mp h]
      rw [hj]
      exact findScheduledLegs_chain gtfs date minTransferDuration
        (pathToTripLegs path) departureTime scheduledLegs hlegs

/-- The journey that `findScheduledTrips` builds on `transferFeed` for the
two-leg transfer path, requested at 07:30:00 with a 300 s buffer. -/
def transferJourney : ScheduledJourney :=
  ⟨[⟨"tA", "tA", "R1", "S1", "S2", 28800, 30000⟩,
    ⟨"tB", "tB", "R2", "S2", "S3", 30600, 31800⟩], 3000, 28800, 31800⟩

/-- Witness for C7 at a concrete input: the two-leg journey on `transferFeed`
departs at or after the requested 27000 s and respects the 300 s buffer. -/
theorem findScheduledTrips_transfer_buffer_witness :
    (∀ sl, transferJourney.legs.head? = some sl → 27000 ≤ sl.departureTime) ∧
      List.Chain' (fun a b => a.arrivalTime + 300 ≤ b.departureTime)
        transferJourney.legs :=
  findScheduledTrips_transfer_buffer transferFeed transferPath "20250101" 27000 300
    transferJourney (by decide)

/-- `find?` on a departure-time-sorted list of stop-time rows returns a
satisfying element of minimal departure time. -/
theorem find?_sorted_min (P : StopTimeRec → Bool) :
    ∀ (l : List StopTimeRec), l.Sorted depLE →
      ∀ x, l.find? P = some x → ∀ y ∈ l, P y = true → depLE x y := by
  intro l
  induction l with
  | nil => intro _ x hx; simp at hx
  | cons a t ih =>
    intro hs x hx y hy hPy
    rcases List.sorted_cons.mp hs with ⟨ha, ht⟩
    by_cases hPa : P a = true
    · rw [List.find?_cons_of_pos _ hPa, Option.some.injEq] at hx
      rcases List.mem_cons.mp hy with rfl | hy2
      · rw [← hx]
        exact Nat.le_refl _
      · rw [← hx]
        exact ha y hy2
    · rw [List.find?_cons_of_neg _ hPa] at hx
      rcases List.mem_cons.mp hy with rfl | hy2
      · exact absurd hPy hPa
      · exact ih ht x hx y hy2 hPy

set_option maxHeartbeats 1000000 in
/-- C8: a leg matched by `findScheduledTrips` is backed by a start-set
stop-time row `dep` of the leg's candidate departures such that the scheduled
leg records `dep`'s trip and departure time, `dep` departs no earlier than the
cursor, `dep`'s trip also serves an end-set stop at a strictly greater stop
sequence (`arrivalMatch`), and every other candidate that departs no earlier
than the cursor and serves an end-set stop later in its sequence departs no
earlier than `dep` — candidates failing either test are skipped. -/
theorem findMatchingLeg_earliest_feasible (gtfs : Gtfs) (date : String)
    (leg : TripLeg) (currentTime : Nat) (sl : ScheduledLeg)
    (h : findMatchingLeg gtfs date leg currentTime = some sl) :
    ∃ dep ∈ departureCandidates gtfs date leg,
      sl.tripId = dep.trip_id ∧
      sl.departureTime = timeToSeconds dep.departure_time ∧
      currentTime ≤ timeToSeconds dep.departure_time ∧
      (arrivalMatch gtfs date leg dep).isSome = true ∧
      ∀ dep' ∈ departureCandidates gtfs date leg,
        currentTime ≤ timeToSeconds dep'.departure_time →
        (arrivalMatch gtfs date leg dep').isSome = true →
        timeToSeconds dep.departure_time ≤ timeToSeconds dep'.departure_time := by
  unfold findMatchingLeg at h
  split at h
  · exact absurd h (by simp)
  · split at h
    · exact absurd h (by simp)
    · split at h
      · exact absurd h (by simp)
      · split at h
        · exact absurd h (by simp)
        · rename_i depStopTime hfind
          split at h
          · exact absurd h (by simp)
          · split at h
            · exact absurd h (by simp)
            · rename_i arrivalStopTime _harr matchedTrip hmt
              have hperm := List.perm_insertionSort depLE (departureCandidates gtfs date leg)
              have hpred := List.find?_some hfind
              rw [Bool.and_eq_true, decide_eq_true_iff] at hpred
              have hmem : depStopTime ∈ departureCandidates gtfs date leg :=
                hperm.mem_iff.mp (List.mem_of_find?_eq_some hfind)
              have htid : matchedTrip.trip_id = depStopTime.trip_id := by
                have := List.find?_some hmt
                exact beq_iff_eq.mp this
              refine ⟨depStopTime, hmem, ?_, ?_, hpred.1, hpred.2, ?_⟩
              · rw [← Option.some.injEq _ _ |>.mp h]
                exact htid
              · rw [← Option.some.injEq _ _ |>.mp h]
              · intro dep' hdep' hcur' harr'
                have hmin := find?_sorted_min
                  (fun st =>
                    decide (currentTime ≤ timeToSeconds st.departure_time) &&
                      (arrivalMatch gtfs date leg st).isSome)
                  ((departureCandidates gtfs date leg).insertionSort depLE)
                  (List.sorted_insertionSort depLE (departureCandidates gtfs date leg))
                  depStopTime hfind
                refine hmin dep' (hperm.mem_iff.mpr hdep') ?_
                rw [Bool.and_eq_true, decide_eq_true_iff]
                exact ⟨hcur', harr'⟩

/-- Witness for C8 at a concrete input: the first leg of the transfer journey
on `transferFeed`, matched from cursor 0. -/
theorem findMatchingLeg_earliest_feasible_witness :
    ∃ dep ∈ departureCandidates transferFeed "20250101" ⟨"S1", "S2", "R1", 0⟩,
      (⟨"tA", "tA", "R1", "S1", "S2", 28800, 30000⟩ : ScheduledLeg).tripId = dep.trip_id ∧
      (⟨"tA", "tA", "R1", "S1", "S2", 28800, 30000⟩ : ScheduledLeg).departureTime =
        timeToSeconds dep.departure_time ∧
      0 ≤ timeToSeconds dep.departure_time ∧
      (arrivalMatch transferFeed "20250101" ⟨"S1", "S2", "R1", 0⟩ dep).isSome = true ∧
      ∀ dep' ∈ departureCandidates transferFeed "20250101" ⟨"S1", "S2", "R1", 0⟩,
        0 ≤ timeToSeconds dep'.departure_time →
        (arrivalMatch transferFeed "20250101" ⟨"S1", "S2", "R1", 0⟩ dep').isSome = true →
        timeToSeconds dep.departure_time ≤ timeToSeconds dep'.departure_time :=
  findMatchingLeg_earliest_feasible transferFeed "20250101" ⟨"S1", "S2", "R1", 0⟩ 0
    ⟨"tA", "tA", "R1", "S1", "S2", 28800, 30000⟩ (by decide)

/-- A node is established in a graph when `hasNode` holds. -/
def NodeEst (n : String) (g : TGraph) : Prop :=
  g.hasNode n = true

/-- A keyed edge is established in a graph when some stored edge carries the
key and every stored edge carrying the key carries this label. -/
def EdgeEst (v w name : String) (lab : TransitEdgeData) (g : TGraph) : Prop :=
  (∃ e ∈ g.edges, edgeKeyMatches v w name e = true) ∧
    ∀ e ∈ g.edges, edgeKeyMatches v w name e = true → e.label = lab

/-- Established nodes are exactly list membership in the node list. -/
theorem nodeEst_iff (n : String) (g : TGraph) : NodeEst n g ↔ n ∈ g.nodes := by
  unfold NodeEst TGraph.hasNode
  exact List.elem_iff

/-- `ensureNode` leaves the edge list unchanged. -/
theorem ensureNode_edges (g : TGraph) (n : String) :
    (g.ensureNode n).edges = g.edges := by
  unfold TGraph.ensureNode TGraph.setNode
  split <;> rfl

/-- `ensureNode` establishes its node. -/
theorem nodeEst_ensureNode_self (g : TGraph) (n : String) :
    NodeEst n (g.ensureNode n) := by
  unfold TGraph.ensureNode
  split
  · assumption
  · rw [nodeEst_iff]
    unfold TGraph.setNode
    simp

/-- `ensureNode` keeps established nodes established. -/
theorem nodeEst_ensureNode (g : TGraph) (n m : String) (h : NodeEst n g) :
    NodeEst n (g.ensureNode m) := by
  unfold TGraph.ensureNode
  split
  · exact h
  · rw [nodeEst_iff] at h ⊢
    unfold TGraph.setNode
    simp [h]

/-- `ensureNode` on an established node is the identity. -/
theorem ensureNode_of_est (g : TGraph) (n : String) (h : NodeEst n g) :
    g.ensureNode n = g := by
  have h' : g.hasNode n = true := h
  unfold TGraph.ensureNode
  rw [if_pos h']

/-- The node list of `setEdge` is that of the two `ensureNode` steps. -/
theorem setEdge_nodes (g : TGraph) (v w : String) (lab : TransitEdgeData)
    (name : String) :
    (g.setEdge v w lab name).nodes = ((g.ensureNode v).ensureNode w).nodes := by
  unfold TGraph.setEdge
  split <;> rfl

/-- The label update of `setEdge` never changes an edge's key fields. -/
theorem edgeKeyMatches_label_update (a b c v w name : String)
    (lab : TransitEdgeData) (e : GEdge) :
    edgeKeyMatches a b c
        (if edgeKeyMatches v w name e then { e with label := lab } else e) =
      edgeKeyMatches a b c e := by
  split <;> rfl

/-- Key matching unfolded to field equations. -/
theorem edgeKeyMatches_iff (v w name : String) (e : GEdge) :
    edgeKeyMatches v w name e = true ↔ e.v = v ∧ e.w = w ∧ e.name = name := by
  simp [edgeKeyMatches, Bool.and_eq_true, beq_iff_eq, and_assoc]

/-- `setEdge` establishes its source node. -/
theorem nodeEst_setEdge_v (g : TGraph) (v w : String) (lab : TransitEdgeData)
    (name : String) : NodeEst v (g.setEdge v w lab name) := by
  rw [nodeEst_iff, setEdge_nodes, ← nodeEst_iff]
  exact nodeEst_ensureNode _ _ _ (nodeEst_ensureNode_self g v)

/-- `setEdge` establishes its target node. -/
theorem nodeEst_setEdge_w (g : TGraph) (v w : String) (lab : TransitEdgeData)
    (name : String) : NodeEst w (g.setEdge v w lab name) := by
  rw [nodeEst_iff, setEdge_nodes, ← nodeEst_iff]
  exact nodeEst_ensureNode_self _ w

/-- `setEdge` keeps established nodes established. -/
theorem nodeEst_setEdge (g : TGraph) (n v w : String) (lab : TransitEdgeData)
    (name : String) (h : NodeEst n g) : NodeEst n (g.setEdge v w lab name) := by
  rw [nodeEst_iff, setEdge_nodes, ← nodeEst_iff]
  exact nodeEst_ensureNode _ _ _ (nodeEst_ensureNode _ _ _ h)

/-- `setEdge` establishes its keyed edge with its label. -/
theorem edgeEst_setEdge_self (g : TGraph) (v w : String) (lab : TransitEdgeData)
    (name : String) : EdgeEst v w name lab (g.setEdge v w lab name) := by
  unfold TGraph.setEdge
  split
  · rename_i hany
    rcases List.any_eq_true.mp hany with ⟨e0, he0m, he0k⟩
    constructor
    · refine ⟨if edgeKeyMatches v w name e0 then { e0 with label := lab } else e0,
        List.mem_map_of_mem _ he0m, ?_⟩
      rw [edgeKeyMatches_label_update]
      exact he0k
    · intro e' he'm he'k
      rcases List.mem_map.mp he'm with ⟨e, _hem, he⟩
      rw [← he] at he'k ⊢
      rw [edgeKeyMatches_label_update] at he'k
      rw [if_pos he'k]
  · constructor
    · refine ⟨⟨v, w, name, lab⟩, by simp, ?_⟩
      simp [edgeKeyMatches]
    · rename_i hany
      intro e' he'm he'k
      rcases List.mem_append.mp he'm with h1 | h2
      · exact absurd (List.any_eq_true.mpr ⟨e', h1, he'k⟩) hany
      · rcases List.mem_singleton.mp h2 with rfl
        rfl

/-- `setEdge` keeps an established keyed edge established, provided the new
edge's name differs or its label agrees. -/
theorem edgeEst_setEdge (g : TGraph) (v' w' name' : String)
    (lab' : TransitEdgeData) (v w : String) (lab : TransitEdgeData) (name : String)
    (hcond : name' ≠ name ∨ lab' = lab)
    (h : EdgeEst v' w' name' lab' g) :
    EdgeEst v' w' name' lab' (g.setEdge v w lab name) := by
  obtain ⟨⟨e0, he0m, he0k⟩, hall⟩ := h
  have he0m' : e0 ∈ ((g.ensureNode v).ensureNode w).edges := by
    rw [ensureNode_edges, ensureNode_edges]
    exact he0m
  have hall' : ∀ e ∈ ((g.ensureNode v).ensureNode w).edges,
      edgeKeyMatches v' w' name' e = true → e.label = lab' := by
    rw [ensureNode_edges, ensureNode_edges]
    exact hall
  unfold TGraph.setEdge
  split
  · constructor
    · refine ⟨if edgeKeyMatches v w name e0 then { e0 with label := lab } else e0,
        List.mem_map_of_mem _ he0m', ?_⟩
      rw [edgeKeyMatches_label_update]
      exact he0k
    · intro e' he'm he'k
      rcases List.mem_map.mp he'm with ⟨e, hem, he⟩
      rw [← he] at he'k
      rw [edgeKeyMatches_label_update] at he'k
      rw [← he]
      by_cases hke : edgeKeyMatches v w name e = true
      · rw [if_pos hke]
        rcases hcond with hne | hlab
        · exfalso
          apply hne
          rw [← (edgeKeyMatches_iff v' w' name' e).mp he'k |>.2.2]
          exact (edgeKeyMatches_iff v w name e).mp hke |>.2.2
        · have : e.label = lab' := hall' e hem he'k
          rw [hlab]
      · rw [if_neg hke]
        exact hall' e hem he'k
  · constructor
    · exact ⟨e0, List.mem_append_left _ he0m', he0k⟩
    · intro e' he'm he'k
      rcases List.mem_append.mp he'm with h1 | h2
      · exact hall' e' h1 he'k
      · rcases List.mem_singleton.mp h2 with rfl
        rcases hcond with hne | hlab
        · exfalso
          apply hne
          exact ((edgeKeyMatches_iff v' w' name' _).mp he'k).2.2.symm
        · rw [hlab]

/-- `setEdge` of an already-established node pair and keyed edge is the
identity: both `ensureNode` steps are identities, the `any` test succeeds,
and the in-place label overwrite writes back the label each matching edge
already carries. -/
theorem setEdge_of_est (g : TGraph) (v w : String) (lab : TransitEdgeData)
    (name : String) (hv : NodeEst v g) (hw : NodeEst w g)
    (hE : EdgeEst v w name lab g) : g.setEdge v w lab name = g := by
  obtain ⟨⟨e0, he0m, he0k⟩, hall⟩ := hE
  unfold TGraph.setEdge
  rw [ensureNode_of_est g v hv, ensureNode_of_est g w hw]
  rw [if_pos (List.any_eq_true.mpr ⟨e0, he0m, he0k⟩)]
  have hmap : g.edges.map (fun e =>
      if edgeKeyMatches v w name e then { e with label := lab } else e) = g.edges := by
    have := List.map_congr_left (l := g.edges)
      (f := fun e => if edgeKeyMatches v w name e then { e with label := lab } else e)
      (g := id) ?_
    · rw [this, List.map_id]
    · intro e hem
      show (if edgeKeyMatches v w name e = true then { e with label := lab } else e) = id e
      by_cases hke : edgeKeyMatches v w name e = true
      · rw [if_pos hke]
        have hl := hall e hem hke
        cases e
        simp at hl ⊢
        exact hl.symm
      · rw [if_neg hke]
        rfl
  rw [hmap]

/-- A successful `addStopNode` leaves the edge list unchanged. -/
theorem addStopNode_edges (gtfs : Gtfs) (g g' : TGraph) (s : String)
    (h : addStopNode gtfs g s = some g') : g'.edges = g.edges := by
  unfold addStopNode at h
  rcases Option.map_eq_some'.mp h with ⟨p, _hp, hg⟩
  rw [← hg]
  split
  · rfl
  · rfl

/-- A successful `addStopNode` keeps established nodes established. -/
theorem addStopNode_nodeEst (gtfs : Gtfs) (g g' : TGraph) (s n : String)
    (h : addStopNode gtfs g s = some g') (hn : NodeEst n g) : NodeEst n g' := by
  unfold addStopNode at h
  rcases Option.map_eq_some'.mp h with ⟨p, _hp, hg⟩
  rw [← hg]
  split
  · exact hn
  · rw [nodeEst_iff] at hn ⊢
    unfold TGraph.setNode
    simp [hn]

/-- `addStopNode` of a stop whose resolved parent is already a node is the
identity. -/
theorem addStopNode_of_est (gtfs : Gtfs) (g : TGraph) (s p : String)
    (hp : findGrandestParent gtfs s = some p) (hn : NodeEst p g) :
    addStopNode gtfs g s = some g := by
  unfold addStopNode
  rw [hp]
  have h' : g.hasNode p = true := hn
  simp [h']

/-- The per-pair establishment fact of one `addTransitEdge` call: both stop
ids resolve, both resolved nodes are present, and the keyed edge for this
route and direction is present with this label. -/
def AEst (gtfs : Gtfs) (a b routeId : String) (directionId : Nat) (g : TGraph) : Prop :=
  ∃ pa pb, findGrandestParent gtfs a = some pa ∧ findGrandestParent gtfs b = some pb ∧
    NodeEst pa g ∧ NodeEst pb g ∧
    EdgeEst pa pb (edgeName routeId directionId) ⟨routeId, directionId⟩ g

/-- A successful `addTransitEdge` establishes its own pair fact. -/
theorem addTransitEdge_est (gtfs : Gtfs) (g g' : TGraph) (a b r : String) (d : Nat)
    (h : addTransitEdge gtfs g a b r d = some g') : AEst gtfs a b r d g' := by
  unfold addTransitEdge at h
  rcases Option.bind_eq_some.mp h with ⟨pa, hpa, h1⟩
  rcases Option.bind_eq_some.mp h1 with ⟨pb, hpb, h2⟩
  rcases Option.bind_eq_some.mp h2 with ⟨g1, _hg1, h3⟩
  rcases Option.bind_eq_some.mp h3 with ⟨g2, _hg2, h4⟩
  have hg' : g' = g2.setEdge pa pb ⟨r, d⟩ (edgeName r d) :=
    ((Option.some.injEq _ _).mp h4).symm
  refine ⟨pa, pb, hpa, hpb, ?_, ?_, ?_⟩
  · rw [hg']
    exact nodeEst_setEdge_v g2 pa pb ⟨r, d⟩ (edgeName r d)
  · rw [hg']
    exact nodeEst_setEdge_w g2 pa pb ⟨r, d⟩ (edgeName r d)
  · rw [hg']
    exact edgeEst_setEdge_self g2 pa pb ⟨r, d⟩ (edgeName r d)

/-- A successful `addTransitEdge` keeps established nodes established. -/
theorem addTransitEdge_nodeEst (gtfs : Gtfs) (g g' : TGraph) (a b r : String)
    (d : Nat) (n : String) (h : addTransitEdge gtfs g a b r d = some g')
    (hn : NodeEst n g) : NodeEst n g' := by
  unfold addTransitEdge at h
  rcases Option.bind_eq_some.mp h with ⟨pa, _hpa, h1⟩
  rcases Option.bind_eq_some.mp h1 with ⟨pb, _hpb, h2⟩
  rcases Option.bind_eq_some.mp h2 with ⟨g1, hg1, h3⟩
  rcases Option.bind_eq_some.mp h3 with ⟨g2, hg2, h4⟩
  have hg' : g' = g2.setEdge pa pb ⟨r, d⟩ (edgeName r d) :=
    ((Option.some.injEq _ _).mp h4).symm
  rw [hg']
  exact nodeEst_setEdge _ _ _ _ _ _
    (addStopNode_nodeEst gtfs g1 g2 b n hg2 (addStopNode_nodeEst gtfs g g1 a n hg1 hn))

/-- A successful `addTransitEdge` keeps an established keyed edge established
when its name differs from the new edge's name or its label agrees. -/
theorem addTransitEdge_edgeEst (gtfs : Gtfs) (g g' : TGraph) (a b r : String)
    (d : Nat) (v w name : String) (lab : TransitEdgeData)
    (hcond : name ≠ edgeName r d ∨ lab = ⟨r, d⟩)
    (h : addTransitEdge gtfs g a b r d = some g')
    (hE : EdgeEst v w name lab g) : EdgeEst v w name lab g' := by
  unfold addTransitEdge at h
  rcases Option.bind_eq_some.mp h with ⟨pa, _hpa, h1⟩
  rcases Option.bind_eq_some.mp h1 with ⟨pb, _hpb, h2⟩
  rcases Option.bind_eq_some.mp h2 with ⟨g1, hg1, h3⟩
  rcases Option.bind_eq_some.mp h3 with ⟨g2, hg2, h4⟩
  have hg' : g' = g2.setEdge pa pb ⟨r, d⟩ (edgeName r d) :=
    ((Option.some.injEq _ _).mp h4).symm
  rw [hg']
  apply edgeEst_setEdge _ _ _ _ _ _ _ _ _ hcond
  have hE1 : EdgeEst v w name lab g1 := by
    obtain ⟨⟨e0, he0, hk0⟩, hall⟩ := hE
    rw [← addStopNode_edges gtfs g g1 a hg1] at he0 hall
    exact ⟨⟨e0, he0, hk0⟩, hall⟩
  obtain ⟨⟨e0, he0, hk0⟩, hall⟩ := hE1
  rw [← addStopNode_edges gtfs g1 g2 b hg2] at he0 hall
  exact ⟨⟨e0, he0, hk0⟩, hall⟩

/-- `addTransitEdge` on an already-established pair fact is the identity. -/
theorem addTransitEdge_of_est (gtfs : Gtfs) (g : TGraph) (a b r : String) (d : Nat)
    (hA : AEst gtfs a b r d g) : addTransitEdge gtfs g a b r d = some g := by
  obtain ⟨pa, pb, hpa, hpb, hna, hnb, hE⟩ := hA
  unfold addTransitEdge
  simp only [hpa, hpb, addStopNode_of_est gtfs g a pa hpa hna,
    addStopNode_of_est gtfs g b pb hpb hnb, Option.bind_some, Option.some_bind,
    Option.bind_eq_bind, Option.pure_def]
  rw [setEdge_of_est g pa pb ⟨r, d⟩ (edgeName r d) hna hnb hE]

/-- A successful `addTransitEdge` keeps pair facts established (same name or
agreeing labels). -/
theorem addTransitEdge_aEst (gtfs : Gtfs) (g g' : TGraph) (x y r' : String)
    (d' : Nat) (a b r : String) (d : Nat)
    (hcond : edgeName r d ≠ edgeName r' d' ∨ (⟨r, d⟩ : TransitEdgeData) = ⟨r', d'⟩)
    (h : addTransitEdge gtfs g x y r' d' = some g')
    (hA : AEst gtfs a b r d g) : AEst gtfs a b r d g' := by
  obtain ⟨pa, pb, hpa, hpb, hna, hnb, hE⟩ := hA
  exact ⟨pa, pb, hpa, hpb,
    addTransitEdge_nodeEst gtfs g g' x y r' d' pa h hna,
    addTransitEdge_nodeEst gtfs g g' x y r' d' pb h hnb,
    addTransitEdge_edgeEst gtfs g g' x y r' d' pa pb (edgeName r d) ⟨r, d⟩ hcond h hE⟩

/-- A successful `addEdgesAlong` keeps pair facts established. -/
theorem addEdgesAlong_aEst (gtfs : Gtfs) (r' : String) (d' : Nat)
    (a b r : String) (d : Nat)
    (hcond : edgeName r d ≠ edgeName r' d' ∨ (⟨r, d⟩ : TransitEdgeData) = ⟨r', d'⟩) :
    ∀ (L : List String) (g g' : TGraph),
      addEdgesAlong gtfs r' d' g L = some g' →
      AEst gtfs a b r d g → AEst gtfs a b r d g' := by
  intro L
  induction L with
  | nil =>
    intro g g' h hA
    rw [addEdgesAlong] at h
    rw [← (Option.some.injEq _ _).mp h]
    exact hA
  | cons x L ih =>
    intro g g' h hA
    cases L with
    | nil =>
      rw [addEdgesAlong] at h
      rw [← (Option.some.injEq _ _).mp h]
      exact hA
    | cons y rest =>
      rw [addEdgesAlong] at h
      rcases Option.bind_eq_some.mp h with ⟨g1, hAT, hrec⟩
      exact ih g1 g' hrec (addTransitEdge_aEst gtfs g g1 x y r' d' a b r d hcond hAT hA)

/-- A successful `addEdgesAlong` establishes the pair fact of every
consecutive stop pair it traversed. -/
theorem addEdgesAlong_est (gtfs : Gtfs) (r : String) (d : Nat) :
    ∀ (L : List String) (g g' : TGraph),
      addEdgesAlong gtfs r d g L = some g' →
      ∀ pr ∈ L.zip L.tail, AEst gtfs pr.1 pr.2 r d g' := by
  intro L
  induction L with
  | nil => intro g g' _ pr hpr; simp at hpr
  | cons x L ih =>
    intro g g' h pr hpr
    cases L with
    | nil => simp at hpr
    | cons y rest =>
      rw [addEdgesAlong] at h
      rcases Option.bind_eq_some.mp h with ⟨g1, hAT, hrec⟩
      rcases List.mem_cons.mp hpr with rfl | hpr2
      · exact addEdgesAlong_aEst gtfs r d x y r d (by right; rfl) (y :: rest) g1 g'
          hrec (addTransitEdge_est gtfs g g1 x y r d hAT)
      · exact ih g1 g' hrec pr hpr2

/-- `addEdgesAlong` over already-established consecutive pairs is the
identity. -/
theorem addEdgesAlong_of_est (gtfs : Gtfs) (r : String) (d : Nat) :
    ∀ (L : List String) (g : TGraph),
      (∀ pr ∈ L.zip L.tail, AEst gtfs pr.1 pr.2 r d g) →
      addEdgesAlong gtfs r d g L = some g := by
  intro L
  induction L with
  | nil => intro g _; rw [addEdgesAlong]
  | cons x L ih =>
    intro g hA
    cases L with
    | nil => rw [addEdgesAlong]
    | cons y rest =>
      rw [addEdgesAlong]
      rw [addTransitEdge_of_est gtfs g x y r d (hA (x, y) (by simp))]
      show addEdgesAlong gtfs r d g (y :: rest) = some g
      refine ih g ?_
      intro pr hpr
      exact hA pr (List.mem_cons_of_mem _ hpr)

/-- The direction-level establishment fact: if the route/direction has trips
on the date, every consecutive pair of its canonical stop list is
established. -/
def DirEst (gtfs : Gtfs) (routeId : String) (directionId : Nat) (date : String)
    (g : TGraph) : Prop :=
  (gtfs.getTrips routeId directionId date).isEmpty = false →
    ∀ pr ∈ (dirStops gtfs routeId directionId date).zip
        (dirStops gtfs routeId directionId date).tail,
      AEst gtfs pr.1 pr.2 routeId directionId g

/-- A successful direction build establishes its direction fact. -/
theorem buildGraphForRouteDirection_est (gtfs : Gtfs) (g g' : TGraph)
    (r : String) (d : Nat) (date : String)
    (h : buildGraphForRouteDirection gtfs g r d date = some g') :
    DirEst gtfs r d date g' := by
  unfold buildGraphForRouteDirection at h
  split at h
  · rename_i hemp
    intro hne
    rw [hemp] at hne
    exact absurd hne (by simp)
  · intro _ pr hpr
    exact addEdgesAlong_est gtfs r d (dirStops gtfs r d date) g g' h pr hpr

/-- A direction build over an established direction fact is the identity. -/
theorem buildGraphForRouteDirection_of_est (gtfs : Gtfs) (g : TGraph)
    (r : String) (d : Nat) (date : String) (hD : DirEst gtfs r d date g) :
    buildGraphForRouteDirection gtfs g r d date = some g := by
  unfold buildGraphForRouteDirection
  split
  · rfl
  · rename_i hemp
    have hne : (gtfs.getTrips r d date).isEmpty = false := by
      cases hq : (gtfs.getTrips r d date).isEmpty
      · rfl
      · exact absurd hq hemp
    exact addEdgesAlong_of_est gtfs r d (dirStops gtfs r d date) g (hD hne)

/-- A successful direction build keeps direction facts established, when the
two (route, direction) pairs have distinct edge names or equal labels. -/
theorem buildGraphForRouteDirection_dirEst (gtfs : Gtfs) (g g' : TGraph)
    (r' : String) (d' : Nat) (r : String) (d : Nat) (date : String)
    (hcond : edgeName r d ≠ edgeName r' d' ∨ (⟨r, d⟩ : TransitEdgeData) = ⟨r', d'⟩)
    (h : buildGraphForRouteDirection gtfs g r' d' date = some g')
    (hD : DirEst gtfs r d date g) : DirEst gtfs r d date g' := by
  unfold buildGraphForRouteDirection at h
  split at h
  · rw [← (Option.some.injEq _ _).mp h]
    exact hD
  · intro hne pr hpr
    exact addEdgesAlong_aEst gtfs r' d' pr.1 pr.2 r d hcond
      (dirStops gtfs r' d' date) g g' h (hD hne pr hpr)

/-- The edge names of the two directions of one route are distinct strings. -/
theorem edgeName_zero_ne_one (r : String) : edgeName r 0 ≠ edgeName r 1 := by
  intro h
  unfold edgeName at h
  rw [show (toString (0 : Nat)) = "0" from rfl,
    show (toString (1 : Nat)) = "1" from rfl] at h
  have h2 := congrArg String.data h
  simp [String.data_append] at h2

/-- C9: `buildGraphForRoute` is idempotent: rebuilding the same route and
date on the graph produced by a first successful build returns that graph
unchanged — every consecutive-pair edge of both directions is re-added with
the same `(from, to, routeId_directionId)` key and the same label, so
`setEdge` overwrites in place and the node and edge sets are untouched. -/
theorem buildGraphForRoute_idempotent (gtfs : Gtfs) (g : TGraph) (r date : String)
    (g1 : TGraph) (h : buildGraphForRoute gtfs g r date = some g1) :
    buildGraphForRoute gtfs g1 r date = some g1 := by
  unfold buildGraphForRoute at h ⊢
  rcases Option.bind_eq_some.mp h with ⟨ga, h0, h1⟩
  have e0 := buildGraphForRouteDirection_est gtfs g ga r 0 date h0
  have e1 := buildGraphForRouteDirection_est gtfs ga g1 r 1 date h1
  have e0' : DirEst gtfs r 0 date g1 :=
    buildGraphForRouteDirection_dirEst gtfs ga g1 r 1 r 0 date
      (Or.inl (edgeName_zero_ne_one r)) h1 e0
  rw [buildGraphForRouteDirection_of_est gtfs g1 r 0 date e0']
  show buildGraphForRouteDirection gtfs g1 r 1 date = some g1
  exact buildGraphForRouteDirection_of_est gtfs g1 r 1 date e1

/-- A one-route, one-direction feed for the idempotence witness. -/
def idemFeed : Gtfs :=
  { stops := [], trips := [⟨"t1", "R", 0, ["20250101"], none⟩], stop_times := [],
    routes := [], orderedStopList := fun _ => [⟨"A"⟩, ⟨"B"⟩] }

/-- The graph built from `idemFeed` for route `R` on `20250101`. -/
def idemGraph : TGraph :=
  { nodes := ["A", "B"], edges := [⟨"A", "B", "R_0", ⟨"R", 0⟩⟩] }

/-- Witness for C9 at a concrete input: rebuilding route `R` on the graph its
first build produced returns that graph unchanged. -/
theorem buildGraphForRoute_idempotent_witness :
    buildGraphForRoute idemFeed idemGraph "R" "20250101" = some idemGraph :=
  buildGraphForRoute_idempotent idemFeed ⟨[], []⟩ "R" "20250101" idemGraph (by decide)

end GtfsItinerary
